import Mathlib

/-!
Verification development for the pending-rewards batch pipeline.

The definitions below are a shallow embedding of the TypeScript sources:
 - `src/helpers/web3.ts`   (Permit2Wrapper.nonceBitmap, Permit2Wrapper.isNonceClaimed)
 - `src/helpers/formatting.ts` (formatTokenAmount, calculateWalletTotals,
    calculateUserWalletTotals)
 - `src/index.ts`          (main: first pass, retry pass, final counts)

Machine integers are modelled as `Nat`/`Int` (ethers `BigNumber` is exact
arbitrary-precision integer arithmetic, so no modular reduction is needed);
fallible code returns `Option`/`Except`; the external collaborators (RPC
oracle, token-symbol lookup, GitHub name resolution) are modelled as an
explicit environment record.
-/

deriving instance DecidableEq for Except

namespace PendingRewards

/-! ## Embedding of ethers `BigNumber.from` on strings

`BigNumber.from(value)` for a string accepts `/^-?0x[0-9a-f]+$/i` (hex) or
`/^-?[0-9]+$/` (decimal) and throws otherwise.  We model it as a partial
parse to `Int`. -/

def decDigit? (c : Char) : Option Nat :=
  if '0' ≤ c ∧ c ≤ '9' then some (c.toNat - '0'.toNat) else none

def hexDigit? (c : Char) : Option Nat :=
  if '0' ≤ c ∧ c ≤ '9' then some (c.toNat - '0'.toNat)
  else if 'a' ≤ c ∧ c ≤ 'f' then some (c.toNat - 'a'.toNat + 10)
  else if 'A' ≤ c ∧ c ≤ 'F' then some (c.toNat - 'A'.toNat + 10)
  else none

def parseDigitsAux (digit? : Char → Option Nat) (base : Nat) :
    List Char → Nat → Option Nat
  | [], acc => some acc
  | c :: cs, acc =>
    match digit? c with
    | none => none
    | some d => parseDigitsAux digit? base cs (acc * base + d)

/-- Decimal magnitude: one or more decimal digits. -/
def parseDec? (cs : List Char) : Option Nat :=
  if cs.isEmpty then none else parseDigitsAux decDigit? 10 cs 0

/-- Hex magnitude (after the `0x` prefix): one or more hex digits. -/
def parseHex? (cs : List Char) : Option Nat :=
  if cs.isEmpty then none else parseDigitsAux hexDigit? 16 cs 0

def parseMagnitude? : List Char → Option Nat
  | '0' :: 'x' :: rest => parseHex? rest
  | '0' :: 'X' :: rest => parseHex? rest
  | cs => parseDec? cs

/-- Models `ethers.BigNumber.from` applied to a string (decimal or
`0x`-hex, optional leading minus sign); `none` models the thrown
`invalid BigNumber string` error. -/
def parseBigNumber? (cs : List Char) : Option Int :=
  match cs with
  | '-' :: rest => (parseMagnitude? rest).map (fun n => -(n : Int))
  | _ => (parseMagnitude? cs).map (fun n => (n : Int))

/-! ## Embedding of `Permit2Wrapper.nonceBitmap` (src/helpers/web3.ts:94-115) -/

/-- The two failure modes of `nonceBitmap`:
`invalidNonce` models the explicit `throw new Error("Invalid nonce value: ...")`
raised when `BigNumber.from` rejects the input, and `negativeOperand` models
the assertion failure raised inside bn.js by `shr`/`and` when the parsed
`BigNumber` is negative (that assertion happens outside the try/catch, so it
is not converted into the `Invalid nonce value` error). -/
inductive NonceErr
  | invalidNonce
  | negativeOperand
deriving DecidableEq, Repr

/-- Models `const cleanNonce = nonce.includes(".") ? nonce.split(".")[0] : nonce`:
the first `.`-separated segment, i.e. everything before the first dot. -/
def cleanNonce (cs : List Char) : List Char :=
  if cs.contains '.' then cs.takeWhile (fun c => c ≠ '.') else cs

/-- Models `nonceBigNumber.shr(8)` / `nonceBigNumber.and(255)` on an ethers
`BigNumber` value: bn.js asserts the operand is non-negative, otherwise the
word position is the arbitrary-precision right shift by 8 and the bit
position the low byte. -/
def bnShiftAnd (v : Int) : Except NonceErr (Nat × Nat) :=
  if v < 0 then .error .negativeOperand
  else .ok (v.toNat >>> 8, v.toNat &&& 255)

/-- `nonceBitmap` accepts `string | number` nonces. Numbers are modelled as
mathematical integers; `BigNumber.from` on a number throws when the number is
not a safe integer. -/
inductive NonceInput
  | str (s : String)
  | num (n : Int)

def maxSafeInteger : Nat := 2 ^ 53 - 1

/-- Embedding of `Permit2Wrapper.nonceBitmap`: parse (with fractional-part
truncation for strings), then compute `(wordPos, bitPos)` via `shr 8` and
`and 255`. -/
def nonceBitmap : NonceInput → Except NonceErr (Nat × Nat)
  | .str s =>
    match parseBigNumber? (cleanNonce s.data) with
    | none => .error .invalidNonce
    | some v => bnShiftAnd v
  | .num n =>
    if maxSafeInteger < n.natAbs then .error .invalidNonce
    else bnShiftAnd n

/-! ## Embedding of the claimed-bit test (src/helpers/web3.ts:134-136)

`const bit = BigNumber.from(1).shl(bitPos);
 const flipped = BigNumber.from(bitmap).xor(bit);
 const isClaimed = bit.and(flipped).eq(0);` -/

def isNonceClaimedBit (bitmap : Nat) (bitPos : Nat) : Bool :=
  (1 <<< bitPos) &&& (bitmap ^^^ (1 <<< bitPos)) == 0

/-- Spec-side definition, from the spec's words: `isBitSet(bitmapWord, bitIndex)`
returns true iff bit `bitIndex` of `bitmapWord` is 1 (direct bit inspection).
Used only to compare the code's formula against the spec. -/
def isBitSetSpec (bitmapWord : Nat) (bitIndex : Nat) : Bool :=
  bitmapWord.testBit bitIndex

/-! ## Arithmetic lemmas for the codec -/

theorem shiftAnd_roundtrip (n : Nat) : ((n >>> 8) <<< 8) ||| (n &&& 255) = n := by
  apply Nat.eq_of_testBit_eq
  intro i
  have h255 : (255 : Nat) = 2 ^ 8 - 1 := by norm_num
  rw [Nat.testBit_lor, Nat.testBit_shiftLeft, Nat.testBit_shiftRight,
    Nat.testBit_land, h255, Nat.testBit_two_pow_sub_one]
  by_cases h : i < 8
  · have h1 : ¬ i ≥ 8 := by omega
    simp [h, h1]
  · have h1 : i ≥ 8 := by omega
    have h2 : 8 + (i - 8) = i := by omega
    simp [h, h1, h2]

theorem isNonceClaimedBit_eq_testBit (w b : Nat) :
    isNonceClaimedBit w b = w.testBit b := by
  unfold isNonceClaimedBit
  have h1 : (1 : Nat) <<< b = 2 ^ b := by rw [Nat.shiftLeft_eq, one_mul]
  have h2 : (2 ^ b) &&& (w ^^^ 2 ^ b) = 2 ^ b * (((w ^^^ 2 ^ b)).testBit b).toNat := by
    rw [Nat.land_comm, Nat.and_two_pow, Nat.mul_comm]
  rw [h1, h2, Nat.testBit_xor, Nat.testBit_two_pow_self]
  cases hw : w.testBit b <;> simp [Nat.pow_eq_zero]

/-! ## Injectivity of the decimal rendering `Nat.repr`

The aggregation key interpolates the network id into a string
(`` `${permit.tokenSymbol} (Network ID: ${permit.network})` ``).  To show that
distinct networks always give distinct keys we prove that `Nat.repr` is
injective, via an explicit decimal-digit recursion. -/

/-- Most-significant-first decimal digit list of `n`, the fuel-free version of
`Nat.toDigitsCore 10`. -/
def decDigits (n : Nat) : List Char :=
  if n / 10 = 0 then [Nat.digitChar (n % 10)]
  else decDigits (n / 10) ++ [Nat.digitChar (n % 10)]
termination_by n
decreasing_by
  exact Nat.div_lt_self (by omega) (by norm_num)

theorem toDigitsCore_eq_decDigits (f : Nat) :
    ∀ (n : Nat) (acc : List Char), n < f →
      Nat.toDigitsCore 10 f n acc = decDigits n ++ acc := by
  induction f with
  | zero => intro n acc h; omega
  | succ f ih =>
    intro n acc h
    rw [Nat.toDigitsCore, decDigits]
    by_cases h10 : n / 10 = 0
    · simp [h10]
    · have hn : 0 < n := by omega
      have hlt : n / 10 < f := by
        have := Nat.div_lt_self hn (show 1 < 10 by norm_num)
        omega
      simp only [h10, if_false]
      rw [ih (n / 10) _ hlt, List.append_assoc, List.singleton_append]

/-- Value of a decimal digit character. -/
def dval (c : Char) : Nat := c.toNat - '0'.toNat

/-- Decimal value of a most-significant-first digit list. -/
def decVal (cs : List Char) : Nat := cs.foldl (fun a c => 10 * a + dval c) 0

theorem dval_digitChar : ∀ d, d < 10 → dval (Nat.digitChar d) = d := by decide

theorem decVal_append_singleton (cs : List Char) (c : Char) :
    decVal (cs ++ [c]) = 10 * decVal cs + dval c := by
  simp [decVal, List.foldl_append]

theorem decVal_decDigits (n : Nat) : decVal (decDigits n) = n := by
  induction n using Nat.strong_induction_on with
  | _ n ih =>
    rw [decDigits]
    by_cases h10 : n / 10 = 0
    · simp only [h10, if_true]
      have h2 : n < 10 := by omega
      have h1 : n % 10 = n := by omega
      rw [h1]
      simp [decVal, dval_digitChar n h2]
    · have hn : 0 < n := by omega
      have hlt : n / 10 < n := Nat.div_lt_self hn (by norm_num)
      simp only [h10, if_false]
      rw [decVal_append_singleton, ih (n / 10) hlt,
        dval_digitChar _ (Nat.mod_lt n (by norm_num))]
      omega

theorem decDigits_injective {m n : Nat} (h : decDigits m = decDigits n) : m = n := by
  have := congrArg decVal h
  rwa [decVal_decDigits, decVal_decDigits] at this

theorem natRepr_injective {m n : Nat} (h : Nat.repr m = Nat.repr n) : m = n := by
  apply decDigits_injective
  have hd : (Nat.repr m).data = (Nat.repr n).data := by rw [h]
  unfold Nat.repr Nat.toDigits at hd
  rw [toDigitsCore_eq_decDigits _ _ _ (Nat.lt_succ_self m),
    toDigitsCore_eq_decDigits _ _ _ (Nat.lt_succ_self n)] at hd
  simpa [List.asString] using hd

/-! ## Embedding of `src/helpers/formatting.ts` -/

/-- `PermitData` (formatting.ts:3-13).  `nonce` is a JS number coming from the
database row, modelled as an integer; `userName` is optional. -/
structure PermitData where
  nonce : Int
  amount : String
  partnerAddress : String
  tokenAddress : String
  tokenSymbol : String
  network : Nat
  userAddress : String
  userName : Option String
  isClaimed : Bool
deriving DecidableEq, Repr

/-- `Record<string, BigNumber>` of per-token running sums, modelled as an
insertion-ordered association list (JS objects preserve insertion order). -/
abbrev TokenMap := List (String × Int)

/-- `WalletTotal` (formatting.ts:15-20); `calculateWalletTotals` never sets
`userName`, so it stays `none`. -/
structure WalletTotal where
  wallet : String
  userName : Option String
  tokenTotals : TokenMap
  grandTotal : Int
deriving DecidableEq, Repr

/-- `UserWalletTotal` (formatting.ts:22-27). -/
structure UserWalletTotal where
  wallet : String
  userName : String
  tokenTotals : TokenMap
  grandTotal : Int
deriving DecidableEq, Repr

/-- JS `Map.get` / object property read on a string-keyed association list. -/
def lookupA {α : Type} : List (String × α) → String → Option α
  | [], _ => none
  | (k', v) :: rest, k => if k' = k then some v else lookupA rest k

/-- JS `Map.set` / object property write: replace in place when the key is
present (keeping its position), append otherwise. -/
def setA {α : Type} : List (String × α) → String → α → List (String × α)
  | [], k, v => [(k, v)]
  | (k', v') :: rest, k, v =>
    if k' = k then (k, v) :: rest else (k', v') :: setA rest k v

/-- `formatTokenAmount` (formatting.ts:29-38): `BigNumber.from(amount)`, and
`BigNumber.from(0)` when parsing throws.  (The `decimals` parameter of the
source function is unused there and omitted.) -/
def formatTokenAmount (amount : String) : Int :=
  (parseBigNumber? amount.data).getD 0

/-- The composite aggregation key
`` `${permit.tokenSymbol} (Network ID: ${permit.network})` ``
(formatting.ts:48 and formatting.ts:81). -/
def tokenKey (p : PermitData) : String :=
  p.tokenSymbol ++ " (Network ID: " ++ toString p.network ++ ")"

/-- Key written the way the spec words it: `"{tokenSymbol} ({network})"`.
Used only to compare the code's key against the spec. -/
def tokenKeySpec (p : PermitData) : String :=
  p.tokenSymbol ++ " (" ++ toString p.network ++ ")"

/-- The shared inner update of both aggregation loops
(formatting.ts:61-67 and formatting.ts:95-101):
initialise the token bucket to 0 when absent, then add the amount. -/
def bumpToken (tt : TokenMap) (key : String) (amount : Int) : TokenMap :=
  let tt1 := if (lookupA tt key).isSome then tt else setA tt key 0
  setA tt1 key ((lookupA tt1 key).getD 0 + amount)

/-- One iteration of the `calculateWalletTotals` loop (formatting.ts:46-68). -/
def walletStep (ex : PermitData → String) (m : List (String × WalletTotal))
    (p : PermitData) : List (String × WalletTotal) :=
  let wallet := ex p
  let key := tokenKey p
  let amount := formatTokenAmount p.amount
  let m1 := if (lookupA m wallet).isSome then m
            else setA m wallet
              { wallet := wallet, userName := none, tokenTotals := [], grandTotal := 0 }
  match lookupA m1 wallet with
  | none => m1
  | some wd =>
    setA m1 wallet
      { wd with tokenTotals := bumpToken wd.tokenTotals key amount
                grandTotal := wd.grandTotal + amount }

/-- `calculateWalletTotals` (formatting.ts:40-71). -/
def calculateWalletTotals (permits : List PermitData)
    (ex : PermitData → String) : List (String × WalletTotal) :=
  permits.foldl (walletStep ex) []

/-- `permit.userName || "Unknown User"` (formatting.ts:80): JS `||` also
replaces the empty string. -/
def userNameOrUnknown (p : PermitData) : String :=
  match p.userName with
  | some s => if s.isEmpty then "Unknown User" else s
  | none => "Unknown User"

/-- One iteration of the `calculateUserWalletTotals` loop
(formatting.ts:78-102). -/
def userStep (m : List (String × UserWalletTotal))
    (p : PermitData) : List (String × UserWalletTotal) :=
  let wallet := p.userAddress
  let key := tokenKey p
  let amount := formatTokenAmount p.amount
  let m1 := if (lookupA m wallet).isSome then m
            else setA m wallet
              { wallet := wallet, userName := userNameOrUnknown p,
                tokenTotals := [], grandTotal := 0 }
  match lookupA m1 wallet with
  | none => m1
  | some wd =>
    setA m1 wallet
      { wd with tokenTotals := bumpToken wd.tokenTotals key amount
                grandTotal := wd.grandTotal + amount }

/-- `calculateUserWalletTotals` (formatting.ts:73-105). -/
def calculateUserWalletTotals (permits : List PermitData) :
    List (String × UserWalletTotal) :=
  permits.foldl userStep []

/-! ### Accessors for stating extensional map properties -/

def hasWallet {α : Type} (m : List (String × α)) (w : String) : Bool :=
  (lookupA m w).isSome

def grandOf (m : List (String × WalletTotal)) (w : String) : Option Int :=
  (lookupA m w).map (fun wd => wd.grandTotal)

def tokOf (m : List (String × WalletTotal)) (w k : String) : Option Int :=
  (lookupA m w).bind (fun wd => lookupA wd.tokenTotals k)

def grandOfU (m : List (String × UserWalletTotal)) (w : String) : Option Int :=
  (lookupA m w).map (fun wd => wd.grandTotal)

def tokOfU (m : List (String × UserWalletTotal)) (w k : String) : Option Int :=
  (lookupA m w).bind (fun wd => lookupA wd.tokenTotals k)

def nameOfU (m : List (String × UserWalletTotal)) (w : String) : Option String :=
  (lookupA m w).map (fun wd => wd.userName)

/-- Amount contributed by one permit to the running sums. -/
def amt (p : PermitData) : Int := formatTokenAmount p.amount

/-- Exact integer sum of the amounts of a permit list. -/
def sumAmounts (ps : List PermitData) : Int := (ps.map amt).sum

/-! ### Association-map lemmas -/

theorem lookupA_setA {α : Type} (m : List (String × α)) (k k' : String) (v : α) :
    lookupA (setA m k v) k' = if k = k' then some v else lookupA m k' := by
  induction m with
  | nil => simp [setA, lookupA]
  | cons hd tl ih =>
    obtain ⟨k0, v0⟩ := hd
    by_cases h : k0 = k
    · subst h
      simp only [setA, if_pos rfl, lookupA]
      by_cases h2 : k0 = k' <;> simp [h2]
    · simp only [setA, if_neg h, lookupA]
      by_cases h2 : k0 = k'
      · have hkk : ¬ k = k' := fun he => h (h2.trans he.symm)
        simp [h2, hkk]
      · simp [h2, ih]

theorem lookupA_bumpToken (tt : TokenMap) (key k : String) (a : Int) :
    lookupA (bumpToken tt key a) k =
      if key = k then some ((lookupA tt key).getD 0 + a) else lookupA tt k := by
  unfold bumpToken
  by_cases h : (lookupA tt key).isSome
  · simp only [h, if_true]
    by_cases h2 : key = k <;> simp [lookupA_setA, h2]
  · have hn : lookupA tt key = none := Option.not_isSome_iff_eq_none.mp h
    simp only [h, if_false]
    by_cases h2 : key = k
    · subst h2
      simp [lookupA_setA, hn]
    · simp [lookupA_setA, h2]

/-! ### Per-step accessor lemmas for the aggregation loops -/

theorem hasWallet_walletStep (ex : PermitData → String)
    (m : List (String × WalletTotal)) (p : PermitData) (w : String) :
    hasWallet (walletStep ex m p) w =
      if ex p = w then true else hasWallet m w := by
  unfold walletStep hasWallet
  cases hm : lookupA m (ex p) with
  | some wd =>
    simp only [hm, Option.isSome_some, if_true]
    by_cases h : ex p = w
    · subst h
      simp [lookupA_setA, hm]
    · simp [lookupA_setA, h]
  | none =>
    simp only [hm, Option.isSome_none, Bool.false_eq_true, if_false,
      lookupA_setA, if_pos rfl]
    by_cases h : ex p = w <;> simp [lookupA_setA, h]

theorem grandOf_walletStep (ex : PermitData → String)
    (m : List (String × WalletTotal)) (p : PermitData) (w : String) :
    grandOf (walletStep ex m p) w =
      if ex p = w then some ((grandOf m w).getD 0 + amt p) else grandOf m w := by
  unfold walletStep grandOf amt
  cases hm : lookupA m (ex p) with
  | some wd =>
    simp only [hm, Option.isSome_some, if_true]
    by_cases h : ex p = w
    · subst h
      simp [lookupA_setA, hm]
    · simp [lookupA_setA, h]
  | none =>
    simp only [hm, Option.isSome_none, Bool.false_eq_true, if_false,
      lookupA_setA, if_pos rfl]
    by_cases h : ex p = w
    · subst h
      simp [lookupA_setA, hm]
    · simp [lookupA_setA, h]

theorem tokOf_walletStep (ex : PermitData → String)
    (m : List (String × WalletTotal)) (p : PermitData) (w k : String) :
    tokOf (walletStep ex m p) w k =
      if ex p = w ∧ tokenKey p = k then
        some ((tokOf m w k).getD 0 + amt p)
      else tokOf m w k := by
  unfold walletStep tokOf amt
  cases hm : lookupA m (ex p) with
  | some wd =>
    simp only [hm, Option.isSome_some, if_true]
    by_cases h : ex p = w
    · subst h
      by_cases h2 : tokenKey p = k
      · subst h2
        simp [lookupA_setA, lookupA_bumpToken, hm]
      · simp [lookupA_setA, lookupA_bumpToken, h2, hm]
    · simp [lookupA_setA, h]
  | none =>
    simp only [hm, Option.isSome_none, Bool.false_eq_true, if_false,
      lookupA_setA, if_pos rfl]
    by_cases h : ex p = w
    · subst h
      by_cases h2 : tokenKey p = k
      · subst h2
        simp [lookupA_setA, lookupA_bumpToken, hm, lookupA]
      · simp [lookupA_setA, lookupA_bumpToken, h2, hm, lookupA]
    · simp [lookupA_setA, h]

theorem hasWallet_userStep (m : List (String × UserWalletTotal))
    (p : PermitData) (w : String) :
    hasWallet (userStep m p) w =
      if p.userAddress = w then true else hasWallet m w := by
  unfold userStep hasWallet
  cases hm : lookupA m p.userAddress with
  | some wd =>
    simp only [hm, Option.isSome_some, if_true]
    by_cases h : p.userAddress = w
    · subst h
      simp [lookupA_setA, hm]
    · simp [lookupA_setA, h]
  | none =>
    simp only [hm, Option.isSome_none, Bool.false_eq_true, if_false,
      lookupA_setA, if_pos rfl]
    by_cases h : p.userAddress = w <;> simp [lookupA_setA, h]

theorem grandOfU_userStep (m : List (String × UserWalletTotal))
    (p : PermitData) (w : String) :
    grandOfU (userStep m p) w =
      if p.userAddress = w then some ((grandOfU m w).getD 0 + amt p)
      else grandOfU m w := by
  unfold userStep grandOfU amt
  cases hm : lookupA m p.userAddress with
  | some wd =>
    simp only [hm, Option.isSome_some, if_true]
    by_cases h : p.userAddress = w
    · subst h
      simp [lookupA_setA, hm]
    · simp [lookupA_setA, h]
  | none =>
    simp only [hm, Option.isSome_none, Bool.false_eq_true, if_false,
      lookupA_setA, if_pos rfl]
    by_cases h : p.userAddress = w
    · subst h
      simp [lookupA_setA, hm]
    · simp [lookupA_setA, h]

theorem tokOfU_userStep (m : List (String × UserWalletTotal))
    (p : PermitData) (w k : String) :
    tokOfU (userStep m p) w k =
      if p.userAddress = w ∧ tokenKey p = k then
        some ((tokOfU m w k).getD 0 + amt p)
      else tokOfU m w k := by
  unfold userStep tokOfU amt
  cases hm : lookupA m p.userAddress with
  | some wd =>
    simp only [hm, Option.isSome_some, if_true]
    by_cases h : p.userAddress = w
    · subst h
      by_cases h2 : tokenKey p = k
      · subst h2
        simp [lookupA_setA, lookupA_bumpToken, hm]
      · simp [lookupA_setA, lookupA_bumpToken, h2, hm]
    · simp [lookupA_setA, h]
  | none =>
    simp only [hm, Option.isSome_none, Bool.false_eq_true, if_false,
      lookupA_setA, if_pos rfl]
    by_cases h : p.userAddress = w
    · subst h
      by_cases h2 : tokenKey p = k
      · subst h2
        simp [lookupA_setA, lookupA_bumpToken, hm, lookupA]
      · simp [lookupA_setA, lookupA_bumpToken, h2, hm, lookupA]
    · simp [lookupA_setA, h]

theorem nameOfU_userStep (m : List (String × UserWalletTotal))
    (p : PermitData) (w : String) :
    nameOfU (userStep m p) w =
      if p.userAddress = w then
        some ((nameOfU m w).getD (userNameOrUnknown p))
      else nameOfU m w := by
  unfold userStep nameOfU
  cases hm : lookupA m p.userAddress with
  | some wd =>
    simp only [hm, Option.isSome_some, if_true]
    by_cases h : p.userAddress = w
    · subst h
      simp [lookupA_setA, hm]
    · simp [lookupA_setA, h]
  | none =>
    simp only [hm, Option.isSome_none, Bool.false_eq_true, if_false,
      lookupA_setA, if_pos rfl]
    by_cases h : p.userAddress = w
    · subst h
      simp [lookupA_setA, hm]
    · simp [lookupA_setA, h]

/-! ### Fold characterizations of the aggregation loops -/

/-- Permits accumulating into wallet `w`. -/
def hitsW (ex : PermitData → String) (w : String) (p : PermitData) : Bool :=
  ex p == w

/-- Permits accumulating into wallet `w` under token key `k`. -/
def hitsWK (ex : PermitData → String) (w k : String) (p : PermitData) : Bool :=
  (ex p == w) && (tokenKey p == k)

/-- Permits accumulating into user wallet `w`. -/
def hitsU (w : String) (p : PermitData) : Bool :=
  p.userAddress == w

/-- Permits accumulating into user wallet `w` under token key `k`. -/
def hitsUK (w k : String) (p : PermitData) : Bool :=
  (p.userAddress == w) && (tokenKey p == k)

theorem sumAmounts_nil : sumAmounts [] = 0 := rfl

theorem sumAmounts_cons (p : PermitData) (l : List PermitData) :
    sumAmounts (p :: l) = amt p + sumAmounts l := by
  simp [sumAmounts]

theorem hasWallet_foldW (ex : PermitData → String) (ps : List PermitData)
    (m : List (String × WalletTotal)) (w : String) :
    hasWallet (ps.foldl (walletStep ex) m) w =
      (hasWallet m w || ps.any (hitsW ex w)) := by
  induction ps generalizing m with
  | nil => simp
  | cons p ps ih =>
    simp only [List.foldl_cons, List.any_cons]
    rw [ih, hasWallet_walletStep]
    by_cases h : ex p = w
    · simp [hitsW, h]
    · have hb : (ex p == w) = false := beq_eq_false_iff_ne.mpr h
      simp [hitsW, h, hb]

theorem grandOf_foldW (ex : PermitData → String) (ps : List PermitData)
    (m : List (String × WalletTotal)) (w : String) :
    grandOf (ps.foldl (walletStep ex) m) w =
      if ps.any (hitsW ex w) then
        some ((grandOf m w).getD 0 + sumAmounts (ps.filter (hitsW ex w)))
      else grandOf m w := by
  induction ps generalizing m with
  | nil => simp
  | cons p ps ih =>
    simp only [List.foldl_cons, List.any_cons, List.filter_cons]
    rw [ih, grandOf_walletStep]
    by_cases h : ex p = w
    · have hh : hitsW ex w p = true := by simp [hitsW, h]
      by_cases h2 : ps.any (hitsW ex w) = true
      · simp only [hh, h2, Bool.true_or, if_true, h, sumAmounts_cons]
        rw [Option.getD_some]
        rw [add_assoc]
      · simp only [hh, h2, Bool.true_or, Bool.or_false, if_true, if_false, h,
          sumAmounts_cons]
        have hf : ps.filter (hitsW ex w) = [] :=
          List.filter_eq_nil_iff.mpr (fun a ha => by
            have := List.any_eq_false.mp (Bool.eq_false_iff.mpr h2) a ha
            simpa using this)
        simp [hf, sumAmounts]
    · have hh : hitsW ex w p = false := by simp [hitsW, h]
      simp [hh, h]

theorem tokOf_foldW (ex : PermitData → String) (ps : List PermitData)
    (m : List (String × WalletTotal)) (w k : String) :
    tokOf (ps.foldl (walletStep ex) m) w k =
      if ps.any (hitsWK ex w k) then
        some ((tokOf m w k).getD 0 + sumAmounts (ps.filter (hitsWK ex w k)))
      else tokOf m w k := by
  induction ps generalizing m with
  | nil => simp
  | cons p ps ih =>
    simp only [List.foldl_cons, List.any_cons, List.filter_cons]
    rw [ih, tokOf_walletStep]
    by_cases h : ex p = w ∧ tokenKey p = k
    · have hh : hitsWK ex w k p = true := by simp [hitsWK, h.1, h.2]
      by_cases h2 : ps.any (hitsWK ex w k) = true
      · simp only [hh, h2, Bool.true_or, if_true, sumAmounts_cons]
        rw [if_pos h, Option.getD_some, add_assoc]
      · have hf : ps.filter (hitsWK ex w k) = [] :=
          List.filter_eq_nil_iff.mpr (fun a ha => by
            have := List.any_eq_false.mp (Bool.eq_false_iff.mpr h2) a ha
            simpa using this)
        simp only [hh, h2, Bool.true_or, Bool.or_false, if_true, if_false,
          sumAmounts_cons]
        rw [if_pos h]
        simp [hf, sumAmounts]
    · have hh : hitsWK ex w k p = false := by
        rcases not_and_or.mp h with h1 | h1 <;> simp [hitsWK, h1]
      simp [hh, h]

theorem hasWallet_foldU (ps : List PermitData)
    (m : List (String × UserWalletTotal)) (w : String) :
    hasWallet (ps.foldl userStep m) w =
      (hasWallet m w || ps.any (hitsU w)) := by
  induction ps generalizing m with
  | nil => simp
  | cons p ps ih =>
    simp only [List.foldl_cons, List.any_cons]
    rw [ih, hasWallet_userStep]
    by_cases h : p.userAddress = w
    · simp [hitsU, h]
    · have hb : (p.userAddress == w) = false := beq_eq_false_iff_ne.mpr h
      simp [hitsU, h, hb]

theorem grandOf_foldU (ps : List PermitData)
    (m : List (String × UserWalletTotal)) (w : String) :
    grandOfU (ps.foldl userStep m) w =
      if ps.any (hitsU w) then
        some ((grandOfU m w).getD 0 + sumAmounts (ps.filter (hitsU w)))
      else grandOfU m w := by
  induction ps generalizing m with
  | nil => simp
  | cons p ps ih =>
    simp only [List.foldl_cons, List.any_cons, List.filter_cons]
    rw [ih, grandOfU_userStep]
    by_cases h : p.userAddress = w
    · have hh : hitsU w p = true := by simp [hitsU, h]
      by_cases h2 : ps.any (hitsU w) = true
      · simp only [hh, h2, Bool.true_or, if_true, h, sumAmounts_cons]
        rw [Option.getD_some]
        rw [add_assoc]
      · simp only [hh, h2, Bool.true_or, Bool.or_false, if_true, if_false, h,
          sumAmounts_cons]
        have hf : ps.filter (hitsU w) = [] :=
          List.filter_eq_nil_iff.mpr (fun a ha => by
            have := List.any_eq_false.mp (Bool.eq_false_iff.mpr h2) a ha
            simpa using this)
        simp [hf, sumAmounts]
    · have hh : hitsU w p = false := by simp [hitsU, h]
      simp [hh, h]

theorem tokOf_foldU (ps : List PermitData)
    (m : List (String × UserWalletTotal)) (w k : String) :
    tokOfU (ps.foldl userStep m) w k =
      if ps.any (hitsUK w k) then
        some ((tokOfU m w k).getD 0 + sumAmounts (ps.filter (hitsUK w k)))
      else tokOfU m w k := by
  induction ps generalizing m with
  | nil => simp
  | cons p ps ih =>
    simp only [List.foldl_cons, List.any_cons, List.filter_cons]
    rw [ih, tokOfU_userStep]
    by_cases h : p.userAddress = w ∧ tokenKey p = k
    · have hh : hitsUK w k p = true := by simp [hitsUK, h.1, h.2]
      by_cases h2 : ps.any (hitsUK w k) = true
      · simp only [hh, h2, Bool.true_or, if_true, sumAmounts_cons]
        rw [if_pos h, Option.getD_some, add_assoc]
      · have hf : ps.filter (hitsUK w k) = [] :=
          List.filter_eq_nil_iff.mpr (fun a ha => by
            have := List.any_eq_false.mp (Bool.eq_false_iff.mpr h2) a ha
            simpa using this)
        simp only [hh, h2, Bool.true_or, Bool.or_false, if_true, if_false,
          sumAmounts_cons]
        rw [if_pos h]
        simp [hf, sumAmounts]
    · have hh : hitsUK w k p = false := by
        rcases not_and_or.mp h with h1 | h1 <;> simp [hitsUK, h1]
      simp [hh, h]

theorem nameOfU_foldU (ps : List PermitData)
    (m : List (String × UserWalletTotal)) (w : String) :
    nameOfU (ps.foldl userStep m) w =
      match nameOfU m w with
      | some nm => some nm
      | none => (ps.find? (hitsU w)).map userNameOrUnknown := by
  induction ps generalizing m with
  | nil =>
    cases hm : nameOfU m w <;> simp [hm]
  | cons p ps ih =>
    simp only [List.foldl_cons]
    rw [ih, nameOfU_userStep]
    by_cases h : p.userAddress = w
    · have hh : hitsU w p = true := by simp [hitsU, h]
      cases hm : nameOfU m w with
      | some nm => simp [h, hm]
      | none => simp [h, hm, List.find?_cons, hh]
    · have hh : hitsU w p = false := by simp [hitsU, h]
      cases hm : nameOfU m w with
      | some nm => simp [h, hm]
      | none => simp [h, hm, List.find?_cons, hh]

/-! ## Embedding of the batch pipeline (`src/index.ts`) -/

/-- One database row (index.ts:28-46), with the joined objects flattened:
`partnerAddress` is `permit.partners?.wallets?.address`, `tokenAddress` is
`permit.tokens?.address`, `userAddress` is `permit.users?.wallets?.address`,
`network` is `permit.tokens?.network`, `userId` is `permit.users?.id`.
`none` models a missing (`undefined`) value from optional chaining. -/
structure PermitRow where
  nonce : Int
  amount : String
  partnerAddress : Option String
  tokenAddress : Option String
  userAddress : Option String
  network : Option Nat
  userId : Option Nat
deriving DecidableEq, Repr

/-- The external collaborators of one run, as a trace environment:
`bitmap row a` is the 256-bit word returned by the
`permit2Contract.nonceBitmap(owner, wordPos)` call for this row at attempt
`a` (`none` = transport failure or revert), `symbol row a` the token symbol
obtained for this row at attempt `a` (the symbol path never throws: the
wrapper substitutes `"UNKNOWN"` internally), and `names` the
`githubUsernames` map fetched before processing. -/
structure Env where
  bitmap : PermitRow → Nat → Option Nat
  symbol : PermitRow → Nat → String
  names : Nat → Option String

/-- JS truthiness of an optional string (`undefined` and `""` are falsy). -/
def strTruthy : Option String → Bool
  | none => false
  | some s => !s.isEmpty

/-- JS truthiness of an optional number (`undefined` and `0` are falsy). -/
def natTruthy : Option Nat → Bool
  | none => false
  | some n => n != 0

/-- The guard `if (!partnerAddress || !tokenAddress || !userAddress || !network)`
(index.ts:133 and index.ts:233). -/
def requiredMissing (row : PermitRow) : Bool :=
  !(strTruthy row.partnerAddress && strTruthy row.tokenAddress &&
    strTruthy row.userAddress && natTruthy row.network)

/-- `githubUserId ? githubUsernames.get(githubUserId) || ` ``user-${githubUserId}`` ` : "Unknown User"`
(index.ts:129-131 and index.ts:229-231); JS `||` also replaces `""`. -/
def rowUserName (names : Nat → Option String) (row : PermitRow) : String :=
  match row.userId with
  | none => "Unknown User"
  | some id =>
    if id = 0 then "Unknown User"
    else
      match names id with
      | none => "user-" ++ toString id
      | some u => if u.isEmpty then "user-" ++ toString id else u

/-- One `permit2Wrapper.isNonceClaimed(partnerAddress, permit.nonce)` call
(web3.ts:117-146) at attempt `a`: derive the bitmap position from the nonce
(a thrown parse/shift error propagates), read the bitmap word from the
environment (`none` = the RPC call threw), then decode the claimed bit.
`none` models the rethrown exception. -/
def isNonceClaimedRun (env : Env) (a : Nat) (row : PermitRow) : Option Bool :=
  match nonceBitmap (.num row.nonce) with
  | .error _ => none
  | .ok (_, bitPos) =>
    match env.bitmap row a with
    | none => none
    | some word => some (isNonceClaimedBit word bitPos)

/-- Result of one `processPermit` closure call (index.ts:120-201, and the
identical retry body index.ts:222-289): `excluded` is the missing-field early
`return null` (no check attempted), `failed` is the catch branch (first pass:
pushed onto `failedChecks`), `verified` carries the built `PermitData`. -/
inductive PermitOutcome
  | excluded
  | failed
  | verified (pd : PermitData)
deriving DecidableEq, Repr

/-- The `processPermit` closure body, parametrised by the attempt number so
that the first pass (attempt 1) and the retry pass (attempt 2) share the
identical logic, as they do textually in the source. -/
def processPermit (env : Env) (a : Nat) (row : PermitRow) : PermitOutcome :=
  if requiredMissing row then .excluded
  else
    match isNonceClaimedRun env a row with
    | none => .failed
    | some isClaimed =>
      .verified
        { nonce := row.nonce
          amount := row.amount
          partnerAddress := row.partnerAddress.getD ""
          tokenAddress := row.tokenAddress.getD ""
          tokenSymbol := env.symbol row a
          network := row.network.getD 0
          userAddress := row.userAddress.getD ""
          userName := some (rowUserName env.names row)
          isClaimed := isClaimed }

/-- First-pass accumulators (index.ts:112-211): `permits` collects non-null
results, `failedChecks` the rows pushed by the catch branch.  `excluded`
additionally records the rows dropped by the missing-field guard (the source
drops them without collecting them; the list is kept here so the partition
can be stated). -/
structure FirstPassResult where
  permits : List PermitData
  failedChecks : List PermitRow
  excluded : List PermitRow
deriving DecidableEq, Repr

def firstPassStep (env : Env) (st : FirstPassResult) (row : PermitRow) :
    FirstPassResult :=
  match processPermit env 1 row with
  | .excluded => { st with excluded := st.excluded ++ [row] }
  | .failed => { st with failedChecks := st.failedChecks ++ [row] }
  | .verified pd => { st with permits := st.permits ++ [pd] }

def firstPass (env : Env) (data : List PermitRow) : FirstPassResult :=
  data.foldl (firstPassStep env) ⟨[], [], []⟩

/-- Retry-pass accumulators (index.ts:217-302): `successes` collects the
non-null retry results appended to `permits`, `retrySuccessCount` mirrors
the `retrySuccessCount++` counter.  `stillFailed` records the retried rows
that again produced no result (the source keeps them only as the difference
`failedChecks.length - retrySuccessCount`). -/
structure RetryResult where
  successes : List PermitData
  stillFailed : List PermitRow
  retrySuccessCount : Nat
deriving DecidableEq, Repr

def retryStep (env : Env) (st : RetryResult) (row : PermitRow) : RetryResult :=
  match processPermit env 2 row with
  | .verified pd =>
    { st with successes := st.successes ++ [pd]
              retrySuccessCount := st.retrySuccessCount + 1 }
  | _ => { st with stillFailed := st.stillFailed ++ [row] }

def retryPass (env : Env) (failed : List PermitRow) : RetryResult :=
  failed.foldl (retryStep env) ⟨[], [], 0⟩

/-- Final state of one `main` run over the fetched rows. -/
structure RunResult where
  permits : List PermitData
  failedChecks : List PermitRow
  excluded : List PermitRow
  stillFailed : List PermitRow
  retrySuccessCount : Nat
deriving DecidableEq, Repr

/-- The two passes of `main` (index.ts:112-313): the retry block runs only
under `if (failedChecks.length > 0)`, and successful retries are appended to
`permits`. -/
def run (env : Env) (data : List PermitRow) : RunResult :=
  let fp := firstPass env data
  let rp := if fp.failedChecks.isEmpty then (⟨[], [], 0⟩ : RetryResult)
            else retryPass env fp.failedChecks
  { permits := fp.permits ++ rp.successes
    failedChecks := fp.failedChecks
    excluded := fp.excluded
    stillFailed := rp.stillFailed
    retrySuccessCount := rp.retrySuccessCount }

/-- The console summary `Final failed checks: ${failedChecks.length - retrySuccessCount}`
(index.ts:311-313). -/
def finalFailedCount (r : RunResult) : Nat :=
  r.failedChecks.length - r.retrySuccessCount

/-- The failure count written into the markdown report,
`- Failed checks: ${failedChecks.length}` (index.ts:356). -/
def markdownFailedCount (r : RunResult) : Nat :=
  r.failedChecks.length

/-- `permits.filter((p) => !p.isClaimed)` (index.ts:304). -/
def unclaimedPermits (r : RunResult) : List PermitData :=
  r.permits.filter (fun p => !p.isClaimed)

/-! ### Characterizations of the two passes -/

/-- The `PermitData` carried by a `verified` outcome. -/
def outcomePD : PermitOutcome → Option PermitData
  | .verified pd => some pd
  | _ => none

def isVerified1 (env : Env) (row : PermitRow) : Bool :=
  (outcomePD (processPermit env 1 row)).isSome

def isFailed1 (env : Env) (row : PermitRow) : Bool :=
  processPermit env 1 row == .failed

def isExcluded1 (env : Env) (row : PermitRow) : Bool :=
  processPermit env 1 row == .excluded

def isVerified2 (env : Env) (row : PermitRow) : Bool :=
  (outcomePD (processPermit env 2 row)).isSome

theorem firstPass_foldl (env : Env) (data : List PermitRow)
    (st : FirstPassResult) :
    data.foldl (firstPassStep env) st =
      { permits := st.permits ++
          data.filterMap (fun r => outcomePD (processPermit env 1 r))
        failedChecks := st.failedChecks ++ data.filter (isFailed1 env)
        excluded := st.excluded ++ data.filter (isExcluded1 env) } := by
  induction data generalizing st with
  | nil => simp
  | cons r rs ih =>
    simp only [List.foldl_cons, List.filterMap_cons, List.filter_cons]
    rw [ih]
    cases hout : processPermit env 1 r with
    | excluded =>
      simp [firstPassStep, hout, outcomePD, isFailed1, isExcluded1]
    | failed =>
      simp [firstPassStep, hout, outcomePD, isFailed1, isExcluded1]
    | verified pd =>
      simp [firstPassStep, hout, outcomePD, isFailed1, isExcluded1]

theorem retryPass_foldl (env : Env) (failed : List PermitRow)
    (st : RetryResult) :
    failed.foldl (retryStep env) st =
      { successes := st.successes ++
          failed.filterMap (fun r => outcomePD (processPermit env 2 r))
        stillFailed := st.stillFailed ++
          failed.filter (fun r => !(isVerified2 env r))
        retrySuccessCount := st.retrySuccessCount +
          (failed.filterMap (fun r => outcomePD (processPermit env 2 r))).length } := by
  induction failed generalizing st with
  | nil => simp
  | cons r rs ih =>
    simp only [List.foldl_cons, List.filterMap_cons, List.filter_cons]
    rw [ih]
    cases hout : processPermit env 2 r with
    | excluded =>
      simp [retryStep, hout, outcomePD, isVerified2]
    | failed =>
      simp [retryStep, hout, outcomePD, isVerified2]
    | verified pd =>
      simp [retryStep, hout, outcomePD, isVerified2]
      omega

theorem firstPass_eq (env : Env) (data : List PermitRow) :
    firstPass env data =
      { permits := data.filterMap (fun r => outcomePD (processPermit env 1 r))
        failedChecks := data.filter (isFailed1 env)
        excluded := data.filter (isExcluded1 env) } := by
  unfold firstPass
  rw [firstPass_foldl]
  simp

/-- The run, with the retry-pass guard resolved: when `failedChecks` is empty
the guard and the (vacuous) retry fold agree. -/
theorem run_eq (env : Env) (data : List PermitRow) :
    run env data =
      { permits := (firstPass env data).permits ++
          (firstPass env data).failedChecks.filterMap
            (fun r => outcomePD (processPermit env 2 r))
        failedChecks := (firstPass env data).failedChecks
        excluded := (firstPass env data).excluded
        stillFailed := (firstPass env data).failedChecks.filter
          (fun r => !(isVerified2 env r))
        retrySuccessCount := ((firstPass env data).failedChecks.filterMap
          (fun r => outcomePD (processPermit env 2 r))).length } := by
  unfold run
  by_cases h : (firstPass env data).failedChecks.isEmpty
  · have he : (firstPass env data).failedChecks = [] := by
      simpa [List.isEmpty_iff] using h
    simp [he]
  · have h2 : (firstPass env data).failedChecks.isEmpty = false :=
      Bool.eq_false_iff.mpr h
    simp only [h2, Bool.false_eq_true, if_false]
    unfold retryPass
    rw [retryPass_foldl]
    simp

/-! ### Counting helpers -/

theorem length_filterMap_eq_countP {α β : Type} (f : α → Option β)
    (l : List α) :
    (l.filterMap f).length = l.countP (fun a => (f a).isSome) := by
  induction l with
  | nil => rfl
  | cons a l ih =>
    cases h : f a <;>
      simp [List.filterMap_cons, h, List.countP_cons, ih]

/-- `exactlyOne a b c` holds when exactly one of the three booleans is true. -/
def exactlyOne (a b c : Bool) : Bool :=
  (a && !b && !c) || (!a && b && !c) || (!a && !b && c)

theorem countP_three_partition {α : Type} (l : List α) (p q r : α → Bool)
    (h : ∀ a ∈ l, exactlyOne (p a) (q a) (r a) = true) :
    l.countP p + l.countP q + l.countP r = l.length := by
  induction l with
  | nil => simp
  | cons a l ih =>
    have ha := h a (List.mem_cons_self a l)
    have hrest : ∀ b ∈ l, exactlyOne (p b) (q b) (r b) = true :=
      fun b hb => h b (List.mem_cons_of_mem a hb)
    have ihr := ih hrest
    simp only [List.countP_cons, List.length_cons]
    cases hp : p a <;> cases hq : q a <;> cases hr : r a <;>
      simp [exactlyOne, hp, hq, hr] at ha ⊢ <;> omega

theorem countP_or_disjoint {α : Type} (l : List α) (p q : α → Bool)
    (h : ∀ a ∈ l, ¬(p a = true ∧ q a = true)) :
    l.countP (fun a => p a || q a) = l.countP p + l.countP q := by
  induction l with
  | nil => simp
  | cons a l ih =>
    have ha := h a (List.mem_cons_self a l)
    have ihr := ih (fun b hb => h b (List.mem_cons_of_mem a hb))
    simp only [List.countP_cons]
    cases hp : p a <;> cases hq : q a <;>
      simp [hp, hq] at ha ⊢ <;> omega

/-! ### The three final buckets of one run -/

/-- The row ends in the `verified` bucket: its first attempt verified it, or
its first attempt failed and its retry verified it. -/
def inVerifiedBucket (env : Env) (row : PermitRow) : Bool :=
  isVerified1 env row || (isFailed1 env row && isVerified2 env row)

/-- The row ends permanently failed: its first attempt failed and its retry
did not verify it. -/
def inFailedBucket (env : Env) (row : PermitRow) : Bool :=
  isFailed1 env row && !(isVerified2 env row)

/-- The row was excluded by the missing-field guard. -/
def inExcludedBucket (env : Env) (row : PermitRow) : Bool :=
  isExcluded1 env row

theorem bucket_trichotomy (env : Env) (row : PermitRow) :
    exactlyOne (inVerifiedBucket env row) (inFailedBucket env row)
      (inExcludedBucket env row) = true := by
  unfold inVerifiedBucket inFailedBucket inExcludedBucket isVerified1
    isFailed1 isExcluded1 exactlyOne
  cases h1 : processPermit env 1 row <;>
    cases h2 : isVerified2 env row <;>
      simp [outcomePD, h2]

theorem run_permits_length (env : Env) (data : List PermitRow) :
    (run env data).permits.length = data.countP (inVerifiedBucket env) := by
  rw [run_eq, firstPass_eq]
  simp only [List.length_append]
  rw [length_filterMap_eq_countP, length_filterMap_eq_countP,
    List.countP_filter]
  have h1 : data.countP (fun r => (outcomePD (processPermit env 2 r)).isSome
      && isFailed1 env r) =
      data.countP (fun r => isFailed1 env r && isVerified2 env r) := by
    apply List.countP_congr
    intro r _
    simp [isVerified2, Bool.and_comm]
  rw [h1]
  have h2 : data.countP (fun r => (outcomePD (processPermit env 1 r)).isSome) =
      data.countP (isVerified1 env) := by
    apply List.countP_congr
    intro r _
    simp [isVerified1]
  rw [h2]
  have hdis : ∀ r ∈ data,
      ¬(isVerified1 env r = true ∧
        (isFailed1 env r && isVerified2 env r) = true) := by
    intro r _ hc
    obtain ⟨hv, hf⟩ := hc
    unfold isVerified1 at hv
    unfold isFailed1 at hf
    cases hout : processPermit env 1 r <;>
      simp [hout, outcomePD] at hv hf
  rw [← countP_or_disjoint data _ _ hdis]
  rfl

theorem run_stillFailed_length (env : Env) (data : List PermitRow) :
    (run env data).stillFailed.length = data.countP (inFailedBucket env) := by
  rw [run_eq, firstPass_eq]
  rw [← List.countP_eq_length_filter, List.countP_filter]
  apply List.countP_congr
  intro r _
  simp [inFailedBucket, Bool.and_comm]

theorem run_excluded_length (env : Env) (data : List PermitRow) :
    (run env data).excluded.length = data.countP (inExcludedBucket env) := by
  rw [run_eq, firstPass_eq]
  rw [← List.countP_eq_length_filter]
  rfl

/-! ### The run consults the environment only at attempts 1 and 2 -/

/-- Two environments that agree on every row at attempts 1 and 2 (and on the
name map).  A run that cannot distinguish such environments performs no third
verification attempt. -/
def agreesThrough (env env2 : Env) : Prop :=
  (∀ r, env.bitmap r 1 = env2.bitmap r 1) ∧
  (∀ r, env.bitmap r 2 = env2.bitmap r 2) ∧
  (∀ r, env.symbol r 1 = env2.symbol r 1) ∧
  (∀ r, env.symbol r 2 = env2.symbol r 2) ∧
  (∀ id, env.names id = env2.names id)

theorem processPermit_congr (env env2 : Env) (a : Nat) (row : PermitRow)
    (hb : env.bitmap row a = env2.bitmap row a)
    (hs : env.symbol row a = env2.symbol row a)
    (hn : ∀ id, env.names id = env2.names id) :
    processPermit env a row = processPermit env2 a row := by
  have hnm : rowUserName env.names row = rowUserName env2.names row := by
    unfold rowUserName
    cases row.userId with
    | none => rfl
    | some id => simp [hn]
  unfold processPermit isNonceClaimedRun
  rw [hb, hs, hnm]

theorem run_congr (env env2 : Env) (data : List PermitRow)
    (h : agreesThrough env env2) : run env data = run env2 data := by
  obtain ⟨hb1, hb2, hs1, hs2, hn⟩ := h
  have hp1 : ∀ r, processPermit env 1 r = processPermit env2 1 r :=
    fun r => processPermit_congr env env2 1 r (hb1 r) (hs1 r) hn
  have hp2 : ∀ r, processPermit env 2 r = processPermit env2 2 r :=
    fun r => processPermit_congr env env2 2 r (hb2 r) (hs2 r) hn
  rw [run_eq, run_eq, firstPass_eq, firstPass_eq]
  have e1 : data.filterMap (fun r => outcomePD (processPermit env 1 r)) =
      data.filterMap (fun r => outcomePD (processPermit env2 1 r)) :=
    List.filterMap_congr (fun r _ => by rw [hp1 r])
  have e2 : data.filter (isFailed1 env) = data.filter (isFailed1 env2) :=
    List.filter_congr (fun r _ => by unfold isFailed1; rw [hp1 r])
  have e3 : data.filter (isExcluded1 env) = data.filter (isExcluded1 env2) :=
    List.filter_congr (fun r _ => by unfold isExcluded1; rw [hp1 r])
  rw [e1, e2, e3]
  have e4 : (data.filter (isFailed1 env2)).filterMap
      (fun r => outcomePD (processPermit env 2 r)) =
      (data.filter (isFailed1 env2)).filterMap
      (fun r => outcomePD (processPermit env2 2 r)) :=
    List.filterMap_congr (fun r _ => by rw [hp2 r])
  have e5 : (data.filter (isFailed1 env2)).filter
      (fun r => !(isVerified2 env r)) =
      (data.filter (isFailed1 env2)).filter
      (fun r => !(isVerified2 env2 r)) :=
    List.filter_congr (fun r _ => by unfold isVerified2; rw [hp2 r])
  rw [e4, e5]

/-! ### Concrete fixtures used by witnesses and counterexamples -/

/-- A fully populated database row. -/
def rowOk : PermitRow :=
  { nonce := 256, amount := "1000", partnerAddress := some "0xPARTNER",
    tokenAddress := some "0xTOKEN", userAddress := some "0xUSER",
    network := some 1, userId := some 7 }

/-- A row missing its token address. -/
def rowMissing : PermitRow :=
  { rowOk with tokenAddress := none }

/-- Every oracle call succeeds with bitmap word 1. -/
def envOk : Env :=
  { bitmap := fun _ _ => some 1, symbol := fun _ _ => "TKN",
    names := fun _ => some "alice" }

/-- The first attempt's oracle call fails, the retry succeeds with word 0. -/
def envFail1 : Env :=
  { bitmap := fun _ a => if a = 1 then none else some 0,
    symbol := fun _ _ => "TKN", names := fun _ => none }

/-- Every oracle call fails. -/
def envFailBoth : Env :=
  { bitmap := fun _ _ => none, symbol := fun _ _ => "TKN",
    names := fun _ => none }

/-! ## Claim theorems: the nonce codec -/

/-- C1: for every nonce value in [0, 2^256-1] (here: any string nonce whose
cleaned form parses to `n < 2^256`), `Permit2Wrapper.nonceBitmap` returns
`wordIndex = nonce >> 8` and `bitIndex = nonce & 255`, with `bitIndex` in
[0,255], and `(wordIndex << 8) ||| bitIndex` reconstructs the nonce exactly
(arbitrary-precision arithmetic, no truncation anywhere in the range). -/
theorem C1_bitmap_position_roundtrip (s : String) (n : Nat)
    (hparse : parseBigNumber? (cleanNonce s.data) = some (n : Int))
    (hrange : n < 2 ^ 256) :
    nonceBitmap (.str s) = .ok (n >>> 8, n &&& 255)
    ∧ n &&& 255 ≤ 255
    ∧ ((n >>> 8) <<< 8) ||| (n &&& 255) = n := by
  refine ⟨?_, Nat.and_le_right, shiftAnd_roundtrip n⟩
  simp only [nonceBitmap, hparse, bnShiftAnd]
  simp [Int.not_lt.mpr (Int.natCast_nonneg n), Int.toNat_natCast]

/-- Witness for C1 at the concrete nonce string "257"
(word index 1, bit index 1). -/
theorem C1_bitmap_position_roundtrip_witness :
    nonceBitmap (.str "257") = .ok (257 >>> 8, 257 &&& 255)
    ∧ 257 &&& 255 ≤ 255
    ∧ ((257 >>> 8) <<< 8) ||| (257 &&& 255) = 257 :=
  C1_bitmap_position_roundtrip "257" 257 (by decide) (by norm_num)

/-- C2: for every 256-bit bitmap word and every bit index in [0,255], the
code's claimed-bit formula `(1 << b) & (word ^ (1 << b)) == 0` agrees with
direct bit inspection (`Nat.testBit`), i.e. with the spec's `isBitSet`. -/
theorem C2_claimed_bit_test_exact (word b : Nat)
    (hword : word < 2 ^ 256) (hb : b ≤ 255) :
    isNonceClaimedBit word b = isBitSetSpec word b
    ∧ (isNonceClaimedBit word b = true ↔ word.testBit b = true) := by
  have h := isNonceClaimedBit_eq_testBit word b
  exact ⟨h, by rw [h]⟩

/-- Witness for C2 at the hand-constructed word `0b100` and bit index 2. -/
theorem C2_claimed_bit_test_exact_witness :
    isNonceClaimedBit 4 2 = isBitSetSpec 4 2
    ∧ (isNonceClaimedBit 4 2 = true ↔ Nat.testBit 4 2 = true) :=
  C2_claimed_bit_test_exact 4 2 (by norm_num) (by norm_num)

/-- C8 counterexample: the string "-1" parses as the integer -1 (so it is an
integer that is not non-negative), yet `nonceBitmap` does not fail with the
`Invalid nonce value` error: the parse succeeds and the later bn.js shift
raises its negative-operand assertion instead.  This refutes the claim that
the computation fails with `InvalidNonce` exactly when the value cannot be
parsed as a non-negative integer. -/
theorem C8_counterexample :
    parseBigNumber? (cleanNonce ("-1".data)) = some (-1)
    ∧ ((-1 : Int) < 0)
    ∧ nonceBitmap (.str "-1") = .error .negativeOperand
    ∧ nonceBitmap (.str "-1") ≠ .error .invalidNonce := by
  refine ⟨by decide, by decide, by decide, by decide⟩

/-- C8 (amended): for every string nonce, a fractional component is truncated
(everything from the first '.' on is dropped) before parsing; the computation
fails with `InvalidNonce` exactly when the truncated value cannot be parsed
as an integer at all; a value that parses as a negative integer fails with
the bn.js negative-operand assertion instead, not with `InvalidNonce`. -/
theorem C8_truncation_and_parse_errors (s : String) :
    (s.data.contains '.' = true →
      nonceBitmap (.str s) =
        (match parseBigNumber? (s.data.takeWhile (fun c => c ≠ '.')) with
         | none => Except.error NonceErr.invalidNonce
         | some v => bnShiftAnd v))
    ∧ (nonceBitmap (.str s) = .error .invalidNonce ↔
        parseBigNumber? (cleanNonce s.data) = none)
    ∧ (∀ v : Int, parseBigNumber? (cleanNonce s.data) = some v → v < 0 →
        nonceBitmap (.str s) = .error .negativeOperand) := by
  refine ⟨?_, ?_, ?_⟩
  · intro hdot
    simp only [nonceBitmap, cleanNonce, hdot, if_true]
  · simp only [nonceBitmap]
    cases hp : parseBigNumber? (cleanNonce s.data) with
    | none => simp
    | some v =>
      unfold bnShiftAnd
      by_cases hv : v < 0 <;> simp [hv]
  · intro v hv hneg
    simp only [nonceBitmap, hv]
    unfold bnShiftAnd
    simp [hneg]

/-- Witness for the amended C8: "12.5" is truncated to "12" before parsing
(word 0, bit 12), and "-3" parses negative and fails with the
negative-operand error. -/
theorem C8_truncation_and_parse_errors_witness :
    nonceBitmap (.str "12.5") = .ok (0, 12)
    ∧ nonceBitmap (.str "-3") = .error .negativeOperand := by
  constructor
  · exact ((C8_truncation_and_parse_errors "12.5").1 (by decide)).trans (by decide)
  · exact (C8_truncation_and_parse_errors "-3").2.2 (-3) (by decide) (by decide)

/-! ## Claim theorems: the batch orchestration -/

/-- C3: every run partitions the submitted permits into exactly one of the
three buckets verified / permanently-failed / excluded (never zero, never
two), the bucket sizes sum to the number of submitted permits, a row with a
missing required field implies the missing-field guard fires, and such a row
is routed to the excluded bucket by an outcome that is the same for every
environment and attempt — i.e. without any verification attempt. -/
theorem C3_bucket_partition (env : Env) (data : List PermitRow) :
    ((run env data).permits.length + (run env data).stillFailed.length +
        (run env data).excluded.length = data.length)
    ∧ (∀ row ∈ data,
        exactlyOne (inVerifiedBucket env row) (inFailedBucket env row)
          (inExcludedBucket env row) = true)
    ∧ (∀ row : PermitRow,
        (row.partnerAddress = none ∨ row.tokenAddress = none ∨
         row.userAddress = none ∨ row.network = none) →
        requiredMissing row = true)
    ∧ (∀ row ∈ data, requiredMissing row = true →
        row ∈ (run env data).excluded ∧
        (∀ (env2 : Env) (a : Nat), processPermit env2 a row = .excluded)) := by
  refine ⟨?_, fun row _ => bucket_trichotomy env row, ?_,
    fun row hrow hmiss => ⟨?_, ?_⟩⟩
  · rw [run_permits_length, run_stillFailed_length, run_excluded_length]
    exact countP_three_partition data _ _ _ (fun a _ => bucket_trichotomy env a)
  · intro row hm
    unfold requiredMissing strTruthy natTruthy
    rcases hm with h | h | h | h <;> simp [h]
  · rw [run_eq, firstPass_eq]
    exact List.mem_filter.mpr
      ⟨hrow, by unfold isExcluded1 processPermit; simp [hmiss]⟩
  · intro env2 a
    unfold processPermit
    simp [hmiss]

/-- Witness for C3: a concrete run over one verifiable row and one row with
a missing token address; counts sum to 2 and the incomplete row lands in the
excluded bucket. -/
theorem C3_bucket_partition_witness :
    ((run envOk [rowOk, rowMissing]).permits.length +
        (run envOk [rowOk, rowMissing]).stillFailed.length +
        (run envOk [rowOk, rowMissing]).excluded.length = 2)
    ∧ rowMissing ∈ (run envOk [rowOk, rowMissing]).excluded :=
  ⟨(C3_bucket_partition envOk [rowOk, rowMissing]).1,
    ((C3_bucket_partition envOk [rowOk, rowMissing]).2.2.2 rowMissing
      (by decide) (by decide)).1⟩

/-- C4 (code bug): on a run with one permit whose first attempt fails and
whose retry succeeds, zero permits remain failed after the retry pass and
the console summary prints 0, but the failure count written into the
markdown report is `failedChecks.length` = 1 — it still counts the
transient first-pass failure that later succeeded. -/
theorem C4_markdown_failed_count_divergence :
    markdownFailedCount (run envFail1 [rowOk]) = 1
    ∧ finalFailedCount (run envFail1 [rowOk]) = 0
    ∧ (run envFail1 [rowOk]).stillFailed.length = 0
    ∧ (run envFail1 [rowOk]).retrySuccessCount = 1 := by decide

/-- C5: the retry pass is vacuous when no first-pass failure exists; each
first-pass failure receives exactly one retry (still-failed plus
retry-successes partition the failed set), the retried outcome is decided by
the identical verification logic at attempt 2, a permit failing its retry is
recorded still-failed exactly as often as it failed, and the whole run is
unchanged under any environment agreeing on attempts 1 and 2 — no third
attempt is ever consulted. -/
theorem C5_single_retry_policy (env : Env) (data : List PermitRow) :
    ((firstPass env data).failedChecks = [] →
      (run env data).retrySuccessCount = 0
      ∧ (run env data).stillFailed = []
      ∧ (run env data).permits = (firstPass env data).permits)
    ∧ ((run env data).stillFailed.length + (run env data).retrySuccessCount =
        (run env data).failedChecks.length)
    ∧ ((run env data).stillFailed =
        (run env data).failedChecks.filter (fun r => !(isVerified2 env r)))
    ∧ (∀ r ∈ (run env data).failedChecks, isVerified2 env r = false →
        (run env data).stillFailed.count r = (run env data).failedChecks.count r)
    ∧ (∀ env2 : Env, agreesThrough env env2 → run env data = run env2 data) := by
  refine ⟨?_, ?_, ?_, ?_, fun env2 hag => run_congr env env2 data hag⟩
  · intro h
    rw [run_eq]
    simp [h]
  · rw [run_eq]
    dsimp only
    rw [← List.countP_eq_length_filter, length_filterMap_eq_countP]
    have h1 : (firstPass env data).failedChecks.countP
        (fun r => (outcomePD (processPermit env 2 r)).isSome) =
        (firstPass env data).failedChecks.countP (isVerified2 env) :=
      List.countP_congr (fun r _ => by simp [isVerified2])
    rw [h1]
    have h2 := List.length_eq_countP_add_countP (isVerified2 env)
      (firstPass env data).failedChecks
    have h3 : (firstPass env data).failedChecks.countP
        (fun a => decide ¬(isVerified2 env a = true)) =
        (firstPass env data).failedChecks.countP
        (fun r => !(isVerified2 env r)) :=
      List.countP_congr (fun r _ => by cases isVerified2 env r <;> simp)
    omega
  · rw [run_eq]
  · intro r hmem hv2
    rw [run_eq]
    dsimp only
    exact List.count_filter (by simp [hv2])

/-- Witness for C5: a clean run has an empty retry pass; with both attempts
failing, the permit is counted still-failed exactly once; and the run is
stable under an environment agreeing on attempts 1 and 2. -/
theorem C5_single_retry_policy_witness :
    ((run envOk [rowOk]).retrySuccessCount = 0
      ∧ (run envOk [rowOk]).stillFailed = []
      ∧ (run envOk [rowOk]).permits = (firstPass envOk [rowOk]).permits)
    ∧ (run envFailBoth [rowOk]).stillFailed.count rowOk =
        (run envFailBoth [rowOk]).failedChecks.count rowOk
    ∧ run envFail1 [rowOk] = run envFail1 [rowOk] :=
  ⟨(C5_single_retry_policy envOk [rowOk]).1 (by decide),
    (C5_single_retry_policy envFailBoth [rowOk]).2.2.2.1 rowOk
      (by decide) (by decide),
    (C5_single_retry_policy envFail1 [rowOk]).2.2.2.2 envFail1
      ⟨fun _ => rfl, fun _ => rfl, fun _ => rfl, fun _ => rfl, fun _ => rfl⟩⟩

/-! ## Permutation helpers for the aggregation claims -/

theorem perm_any {α : Type} {l1 l2 : List α} (h : l1.Perm l2) (f : α → Bool) :
    l1.any f = l2.any f := by
  cases hb : l2.any f
  · exact List.any_eq_false.mpr
      (fun x hx => List.any_eq_false.mp hb x (h.mem_iff.mp hx))
  · obtain ⟨x, hx, hfx⟩ := List.any_eq_true.mp hb
    exact List.any_eq_true.mpr ⟨x, h.mem_iff.mpr hx, hfx⟩

theorem perm_sumAmounts {l1 l2 : List PermitData} (h : l1.Perm l2)
    (f : PermitData → Bool) :
    sumAmounts (l1.filter f) = sumAmounts (l2.filter f) :=
  List.Perm.sum_eq (List.Perm.map amt (List.Perm.filter f h))

theorem nameOfU_nil (w : String) :
    nameOfU ([] : List (String × UserWalletTotal)) w = none := rfl

theorem find?_userName_agree {ps qs : List PermitData} (hperm : ps.Perm qs)
    (w : String)
    (hname : ∀ p ∈ ps, ∀ q ∈ ps, p.userAddress = q.userAddress →
      p.userName = q.userName) :
    (ps.find? (hitsU w)).map userNameOrUnknown =
      (qs.find? (hitsU w)).map userNameOrUnknown := by
  cases h1 : ps.find? (hitsU w) with
  | none =>
    cases h2 : qs.find? (hitsU w) with
    | none => rfl
    | some q =>
      have hq := List.mem_of_find?_eq_some h2
      exact absurd (List.find?_some h2)
        (List.find?_eq_none.mp h1 q (hperm.mem_iff.mpr hq))
  | some p =>
    cases h2 : qs.find? (hitsU w) with
    | none =>
      have hp := List.mem_of_find?_eq_some h1
      exact absurd (List.find?_some h1)
        (List.find?_eq_none.mp h2 p (hperm.mem_iff.mp hp))
    | some q =>
      have hp := List.mem_of_find?_eq_some h1
      have hq := hperm.mem_iff.mpr (List.mem_of_find?_eq_some h2)
      have hpw : p.userAddress = w := by
        have := List.find?_some h1
        simpa [hitsU] using this
      have hqw : q.userAddress = w := by
        have := List.find?_some h2
        simpa [hitsU] using this
      have hnm := hname p hp q hq (hpw.trans hqw.symm)
      have huu : userNameOrUnknown p = userNameOrUnknown q := by
        unfold userNameOrUnknown
        rw [hnm]
      simp [huu]

/-! ## Concrete permits used by aggregation witnesses and counterexamples -/

def pX : PermitData :=
  { nonce := 1, amount := "5", partnerAddress := "P", tokenAddress := "T",
    tokenSymbol := "TKN", network := 1, userAddress := "a",
    userName := some "x", isClaimed := false }

/-- Same user wallet as `pX` but a different user name. -/
def pY : PermitData :=
  { pX with amount := "7", userName := some "y" }

/-- Same user wallet and user name as `pX`, different amount. -/
def pZ : PermitData :=
  { pX with amount := "7" }

/-- Same permit as `pX` on a different network. -/
def pN : PermitData :=
  { pX with network := 100 }

/-! ## Claim theorems: the reward aggregation -/

/-- C6 counterexample: the two-permit lists `[pX, pY]` and `[pY, pX]` are
permutations of each other, both permits pay the same user wallet "a" but
carry different user names, and the aggregated `UserWalletTotal` maps differ
in the `userName` field of wallet "a" (the first-seen name wins).  This
refutes order-independence as claimed for the `userName` field. -/
theorem C6_counterexample :
    ([pX, pY].Perm [pY, pX])
    ∧ pX.userAddress = pY.userAddress
    ∧ nameOfU (calculateUserWalletTotals [pX, pY]) "a" = some "x"
    ∧ nameOfU (calculateUserWalletTotals [pY, pX]) "a" = some "y"
    ∧ nameOfU (calculateUserWalletTotals [pX, pY]) "a" ≠
        nameOfU (calculateUserWalletTotals [pY, pX]) "a" :=
  ⟨List.Perm.swap pY pX [], by decide, by decide, by decide, by decide⟩

/-- C6 (amended): aggregation is order-independent as an extensional map:
for every permit list and every permutation of it — with no condition on the
data — the key sets, every per-token sum and every grand total of both the
`WalletTotal` and the `UserWalletTotal` maps are preserved; the `userName`
fields also agree provided any two permits sharing a `userAddress` carry the
same `userName` (without that proviso the first-seen name wins and can
depend on the order, as the counterexample shows). -/
theorem C6_aggregation_order_independent (ps qs : List PermitData)
    (ex : PermitData → String) (hperm : ps.Perm qs) :
    (∀ w, hasWallet (calculateWalletTotals ps ex) w =
        hasWallet (calculateWalletTotals qs ex) w)
    ∧ (∀ w, grandOf (calculateWalletTotals ps ex) w =
        grandOf (calculateWalletTotals qs ex) w)
    ∧ (∀ w k, tokOf (calculateWalletTotals ps ex) w k =
        tokOf (calculateWalletTotals qs ex) w k)
    ∧ (∀ w, hasWallet (calculateUserWalletTotals ps) w =
        hasWallet (calculateUserWalletTotals qs) w)
    ∧ (∀ w, grandOfU (calculateUserWalletTotals ps) w =
        grandOfU (calculateUserWalletTotals qs) w)
    ∧ (∀ w k, tokOfU (calculateUserWalletTotals ps) w k =
        tokOfU (calculateUserWalletTotals qs) w k)
    ∧ ((∀ p ∈ ps, ∀ q ∈ ps, p.userAddress = q.userAddress →
          p.userName = q.userName) →
        ∀ w, nameOfU (calculateUserWalletTotals ps) w =
          nameOfU (calculateUserWalletTotals qs) w) := by
  refine ⟨?_, ?_, ?_, ?_, ?_, ?_, ?_⟩
  · intro w
    unfold calculateWalletTotals
    rw [hasWallet_foldW, hasWallet_foldW, perm_any hperm (hitsW ex w)]
  · intro w
    unfold calculateWalletTotals
    rw [grandOf_foldW, grandOf_foldW, perm_any hperm (hitsW ex w),
      perm_sumAmounts hperm (hitsW ex w)]
  · intro w k
    unfold calculateWalletTotals
    rw [tokOf_foldW, tokOf_foldW, perm_any hperm (hitsWK ex w k),
      perm_sumAmounts hperm (hitsWK ex w k)]
  · intro w
    unfold calculateUserWalletTotals
    rw [hasWallet_foldU, hasWallet_foldU, perm_any hperm (hitsU w)]
  · intro w
    unfold calculateUserWalletTotals
    rw [grandOf_foldU, grandOf_foldU, perm_any hperm (hitsU w),
      perm_sumAmounts hperm (hitsU w)]
  · intro w k
    unfold calculateUserWalletTotals
    rw [tokOf_foldU, tokOf_foldU, perm_any hperm (hitsUK w k),
      perm_sumAmounts hperm (hitsUK w k)]
  · intro hname w
    unfold calculateUserWalletTotals
    rw [nameOfU_foldU, nameOfU_foldU]
    simp only [nameOfU_nil]
    exact find?_userName_agree hperm w hname

/-- Witness for the amended C6: the sum conclusions apply even to the
counterexample's swap with inconsistent user names, and the `userName`
conclusion applies to a concrete swap of two permits with a consistent
user name. -/
theorem C6_aggregation_order_independent_witness :
    grandOfU (calculateUserWalletTotals [pX, pY]) "a" =
      grandOfU (calculateUserWalletTotals [pY, pX]) "a"
    ∧ nameOfU (calculateUserWalletTotals [pX, pZ]) "a" =
        nameOfU (calculateUserWalletTotals [pZ, pX]) "a" :=
  ⟨(C6_aggregation_order_independent [pX, pY] [pY, pX]
      (fun p => p.partnerAddress)
      (List.Perm.swap pY pX [])).2.2.2.2.1 "a",
    (C6_aggregation_order_independent [pX, pZ] [pZ, pX]
      (fun p => p.partnerAddress)
      (List.Perm.swap pZ pX [])).2.2.2.2.2.2 (by decide) "a"⟩

/-- C7 counterexample: the aggregation key actually built by the code is
`"TKN (Network ID: 1)"`, not the claimed form `"TKN (1)"`; the permit's
amount is accumulated under the former key and no entry exists at the
claimed key. -/
theorem C7_counterexample :
    tokenKey pX ≠ tokenKeySpec pX
    ∧ tokenKey pX = "TKN (Network ID: 1)"
    ∧ tokenKeySpec pX = "TKN (1)"
    ∧ tokOf (calculateWalletTotals [pX] (fun p => p.partnerAddress)) "P"
        (tokenKeySpec pX) = none
    ∧ tokOf (calculateWalletTotals [pX] (fun p => p.partnerAddress)) "P"
        (tokenKey pX) = some 5 := by
  refine ⟨by decide, by decide, by decide, by decide, by decide⟩

/-- C7 (amended): running sums are partitioned by the composite key
`"{tokenSymbol} (Network ID: {network})"` built from the token symbol and
the network; two permits with the same symbol but different networks always
get distinct keys (decimal rendering of the network id is injective), and
each per-key sum is the exact arbitrary-precision integer sum of the amounts
hitting that wallet and key — no floating point anywhere. -/
theorem C7_composite_key_partition (ps : List PermitData)
    (ex : PermitData → String) (w k : String) (p q : PermitData)
    (hsym : p.tokenSymbol = q.tokenSymbol) (hnet : p.network ≠ q.network) :
    tokenKey p ≠ tokenKey q
    ∧ tokenKey p = p.tokenSymbol ++ " (Network ID: " ++ toString p.network ++ ")"
    ∧ (tokOf (calculateWalletTotals ps ex) w k =
        if ps.any (hitsWK ex w k) then
          some (sumAmounts (ps.filter (hitsWK ex w k)))
        else none) := by
  refine ⟨?_, rfl, ?_⟩
  · intro he
    apply hnet
    unfold tokenKey at he
    rw [hsym] at he
    have hd := congrArg String.data he
    simp only [String.data_append, List.append_assoc] at hd
    have h2 := List.append_cancel_left hd
    have h3 := List.append_cancel_left h2
    have h4 := List.append_cancel_right h3
    exact natRepr_injective (String.ext h4)
  · unfold calculateWalletTotals
    rw [tokOf_foldW]
    by_cases h : ps.any (hitsWK ex w k) <;> simp [h, tokOf, lookupA]

/-- Witness for the amended C7: networks 1 and 100 with the same symbol give
distinct keys, and a singleton aggregation carries its exact sum under the
composite key. -/
theorem C7_composite_key_partition_witness :
    tokenKey pX ≠ tokenKey pN
    ∧ (tokOf (calculateWalletTotals [pX] (fun p => p.partnerAddress)) "P"
        "TKN (Network ID: 1)" =
        if [pX].any (hitsWK (fun p => p.partnerAddress) "P"
            "TKN (Network ID: 1)") then
          some (sumAmounts ([pX].filter (hitsWK (fun p => p.partnerAddress)
            "P" "TKN (Network ID: 1)")))
        else none) :=
  ⟨(C7_composite_key_partition [] (fun p => p.partnerAddress) "" "" pX pN
      rfl (by decide)).1,
    (C7_composite_key_partition [pX] (fun p => p.partnerAddress) "P"
      "TKN (Network ID: 1)" pX pN rfl (by decide)).2.2⟩

/-- C9: an amount string that does not parse as an integer is turned into 0
by `formatTokenAmount`, and the carrying permit is still aggregated — its
wallet entry and token bucket exist — contributing exactly 0 to the wallet's
token total and grand total, with no error raised and no exclusion. -/
theorem C9_malformed_amount_contributes_zero (p : PermitData)
    (ex : PermitData → String)
    (hbad : parseBigNumber? p.amount.data = none) :
    formatTokenAmount p.amount = 0
    ∧ amt p = 0
    ∧ (∀ ps, grandOf (calculateWalletTotals (p :: ps) ex) (ex p) =
        some (sumAmounts (ps.filter (hitsW ex (ex p)))))
    ∧ hasWallet (calculateWalletTotals [p] ex) (ex p) = true
    ∧ tokOf (calculateWalletTotals [p] ex) (ex p) (tokenKey p) = some 0 := by
  have hz : formatTokenAmount p.amount = 0 := by
    unfold formatTokenAmount
    rw [hbad]
    rfl
  refine ⟨hz, hz, ?_, ?_, ?_⟩
  · intro ps
    unfold calculateWalletTotals
    rw [grandOf_foldW]
    have hh : hitsW ex (ex p) p = true := by simp [hitsW]
    simp only [List.any_cons, hh, Bool.true_or, if_true, List.filter_cons,
      sumAmounts_cons]
    have ha : amt p = 0 := hz
    simp [ha, grandOf, lookupA]
  · unfold calculateWalletTotals
    rw [hasWallet_foldW]
    simp [hitsW]
  · unfold calculateWalletTotals
    rw [tokOf_foldW]
    have hh : hitsWK ex (ex p) (tokenKey p) p = true := by simp [hitsWK]
    have ha : amt p = 0 := hz
    simp [hh, tokOf, lookupA, sumAmounts, ha]

/-- Witness for C9 at a concrete permit with the unparseable amount "12abc":
it contributes a zero bucket instead of an error. -/
theorem C9_malformed_amount_contributes_zero_witness :
    formatTokenAmount "12abc" = 0
    ∧ tokOf (calculateWalletTotals [{ pX with amount := "12abc" }]
        (fun p => p.partnerAddress)) "P"
        (tokenKey { pX with amount := "12abc" }) = some 0 :=
  ⟨(C9_malformed_amount_contributes_zero { pX with amount := "12abc" }
      (fun p => p.partnerAddress) (by decide)).1,
    (C9_malformed_amount_contributes_zero { pX with amount := "12abc" }
      (fun p => p.partnerAddress) (by decide)).2.2.2.2⟩

/-! ## The grand-total consistency invariant (C10) -/

/-- Sum of the values of a token map. -/
def tokSum (tt : TokenMap) : Int := (tt.map (fun kv => kv.2)).sum

/-- Every entry's `grandTotal` equals the sum of its `tokenTotals` values. -/
def walletInv (m : List (String × WalletTotal)) : Prop :=
  ∀ e ∈ m, e.2.grandTotal = tokSum e.2.tokenTotals

/-- The same invariant for the user-level map. -/
def userInv (m : List (String × UserWalletTotal)) : Prop :=
  ∀ e ∈ m, e.2.grandTotal = tokSum e.2.tokenTotals

theorem tokSum_cons (k : String) (v : Int) (tl : TokenMap) :
    tokSum ((k, v) :: tl) = v + tokSum tl := by
  simp [tokSum]

theorem lookupA_mem {α : Type} (m : List (String × α)) (k : String) (v : α)
    (h : lookupA m k = some v) : (k, v) ∈ m := by
  induction m with
  | nil => simp [lookupA] at h
  | cons hd tl ih =>
    obtain ⟨k0, v0⟩ := hd
    by_cases hk : k0 = k
    · subst hk
      simp only [lookupA, if_pos rfl] at h
      have := Option.some.inj h
      subst this
      exact List.mem_cons_self _ _
    · simp only [lookupA, if_neg hk] at h
      exact List.mem_cons_of_mem _ (ih h)

theorem mem_setA {α : Type} {m : List (String × α)} {k : String} {v : α}
    {e : String × α} (h : e ∈ setA m k v) : e = (k, v) ∨ e ∈ m := by
  induction m with
  | nil =>
    simp [setA] at h
    exact Or.inl h
  | cons hd tl ih =>
    obtain ⟨k0, v0⟩ := hd
    by_cases hk : k0 = k
    · subst hk
      simp only [setA, if_pos rfl] at h
      rcases List.mem_cons.mp h with h1 | h1
      · exact Or.inl h1
      · exact Or.inr (List.mem_cons_of_mem _ h1)
    · simp only [setA, if_neg hk] at h
      rcases List.mem_cons.mp h with h1 | h1
      · exact Or.inr (h1 ▸ List.mem_cons_self _ _)
      · rcases ih h1 with h2 | h2
        · exact Or.inl h2
        · exact Or.inr (List.mem_cons_of_mem _ h2)

theorem tokSum_setA (tt : TokenMap) (k : String) (v : Int) :
    tokSum (setA tt k v) = tokSum tt + v - (lookupA tt k).getD 0 := by
  induction tt with
  | nil => simp [setA, tokSum, lookupA]
  | cons hd tl ih =>
    obtain ⟨k0, v0⟩ := hd
    by_cases hk : k0 = k
    · subst hk
      simp only [setA, eq_self_iff_true, if_true]
      rw [tokSum_cons, tokSum_cons]
      simp only [lookupA, eq_self_iff_true, if_true, Option.getD_some]
      ring
    · simp only [setA, if_neg hk]
      rw [tokSum_cons, tokSum_cons, ih]
      simp only [lookupA, if_neg hk]
      ring

theorem tokSum_bumpToken (tt : TokenMap) (key : String) (a : Int) :
    tokSum (bumpToken tt key a) = tokSum tt + a := by
  unfold bumpToken
  cases hk : lookupA tt key with
  | some v0 =>
    simp only [hk, Option.isSome_some, if_true]
    rw [tokSum_setA, hk]
    simp only [Option.getD_some]
    ring
  | none =>
    simp only [hk, Option.isSome_none, Bool.false_eq_true, if_false]
    rw [tokSum_setA, tokSum_setA, lookupA_setA]
    simp [hk]

theorem walletInv_step (ex : PermitData → String)
    (m : List (String × WalletTotal)) (p : PermitData)
    (h : walletInv m) : walletInv (walletStep ex m p) := by
  unfold walletStep
  cases hm : lookupA m (ex p) with
  | some wd =>
    simp only [hm, Option.isSome_some, if_true]
    intro e he
    rcases mem_setA he with he1 | he1
    · subst he1
      show wd.grandTotal + formatTokenAmount p.amount =
        tokSum (bumpToken wd.tokenTotals (tokenKey p) (formatTokenAmount p.amount))
      rw [tokSum_bumpToken, h (ex p, wd) (lookupA_mem m (ex p) wd hm)]
    · exact h e he1
  | none =>
    simp only [hm, Option.isSome_none, Bool.false_eq_true, if_false,
      lookupA_setA, if_pos rfl]
    intro e he
    rcases mem_setA he with he1 | he1
    · subst he1
      show (0 : Int) + formatTokenAmount p.amount =
        tokSum (bumpToken [] (tokenKey p) (formatTokenAmount p.amount))
      rw [tokSum_bumpToken]
      simp [tokSum]
    · rcases mem_setA he1 with he2 | he2
      · subst he2
        show (0 : Int) = tokSum []
        rfl
      · exact h e he2

theorem userInv_step (m : List (String × UserWalletTotal)) (p : PermitData)
    (h : userInv m) : userInv (userStep m p) := by
  unfold userStep
  cases hm : lookupA m p.userAddress with
  | some wd =>
    simp only [hm, Option.isSome_some, if_true]
    intro e he
    rcases mem_setA he with he1 | he1
    · subst he1
      show wd.grandTotal + formatTokenAmount p.amount =
        tokSum (bumpToken wd.tokenTotals (tokenKey p) (formatTokenAmount p.amount))
      rw [tokSum_bumpToken, h (p.userAddress, wd)
        (lookupA_mem m p.userAddress wd hm)]
    · exact h e he1
  | none =>
    simp only [hm, Option.isSome_none, Bool.false_eq_true, if_false,
      lookupA_setA, if_pos rfl]
    intro e he
    rcases mem_setA he with he1 | he1
    · subst he1
      show (0 : Int) + formatTokenAmount p.amount =
        tokSum (bumpToken [] (tokenKey p) (formatTokenAmount p.amount))
      rw [tokSum_bumpToken]
      simp [tokSum]
    · rcases mem_setA he1 with he2 | he2
      · subst he2
        show (0 : Int) = tokSum []
        rfl
      · exact h e he2

theorem walletInv_calc (ps : List PermitData) (ex : PermitData → String) :
    walletInv (calculateWalletTotals ps ex) := by
  unfold calculateWalletTotals
  have h : ∀ m, walletInv m → walletInv (ps.foldl (walletStep ex) m) := by
    induction ps with
    | nil => intro m hm; simpa
    | cons p ps ih => intro m hm; exact ih _ (walletInv_step ex m p hm)
  exact h [] (fun e he => absurd he (List.not_mem_nil e))

theorem userInv_calc (ps : List PermitData) :
    userInv (calculateUserWalletTotals ps) := by
  unfold calculateUserWalletTotals
  have h : ∀ m, userInv m → userInv (ps.foldl userStep m) := by
    induction ps with
    | nil => intro m hm; simpa
    | cons p ps ih => intro m hm; exact ih _ (userInv_step m p hm)
  exact h [] (fun e he => absurd he (List.not_mem_nil e))

/-- C10: every `WalletTotal` and `UserWalletTotal` entry produced by the
aggregation satisfies `grandTotal = sum of its tokenTotals values`; the
invariant is preserved by each fold step of both loops and holds of the
finished maps for every input. -/
theorem C10_grandTotal_matches_tokenTotals (ps : List PermitData)
    (ex : PermitData → String) :
    (∀ m p, walletInv m → walletInv (walletStep ex m p))
    ∧ walletInv (calculateWalletTotals ps ex)
    ∧ (∀ m p, userInv m → userInv (userStep m p))
    ∧ userInv (calculateUserWalletTotals ps) :=
  ⟨fun m p => walletInv_step ex m p, walletInv_calc ps ex,
    fun m p => userInv_step m p, userInv_calc ps⟩

/-- Witness for C10: one fold step from the empty map preserves the
invariant at a concrete permit. -/
theorem C10_grandTotal_matches_tokenTotals_witness :
    walletInv (walletStep (fun p => p.partnerAddress) [] pX)
    ∧ userInv (userStep [] pX) :=
  ⟨(C10_grandTotal_matches_tokenTotals [] (fun p => p.partnerAddress)).1 [] pX
      (fun e he => absurd he (List.not_mem_nil e)),
    (C10_grandTotal_matches_tokenTotals [] (fun p => p.partnerAddress)).2.2.1 [] pX
      (fun e he => absurd he (List.not_mem_nil e))⟩

end PendingRewards

